import Mathlib

set_option maxRecDepth 8000

/-!
Shallow embedding of the CHIP-8 virtual machine core found in
`chip-8-interpreter` (files `memory.rs`, `register.rs`, `instruction.rs`,
`chip.rs`), together with theorems settling the specification claims.

Modelling conventions:
* Rust `u8`/`u16` values are `Nat` with explicit `% 256` / `% 65536`
  wherever the source performs wrapping machine arithmetic
  (release-mode semantics: overflowing `+=`, `-=` and `<<` wrap).
* `Result<T, String>` is `Except String T`; the interpolated parts of the
  source error messages are dropped, the messages themselves are kept.
* A Rust panic (an `unwrap()` on an `Err`, or an out-of-range slice index)
  is modelled by an `Option`-returning handler producing `none`.
* The callback sink (`Chip8Callback`) only invokes host closures and never
  feeds information back into the engine, so it is not part of the state;
  the wall-clock `Instant` fields of `Registers` are likewise omitted
  because no claim concerns timer decay.
-/

namespace Chip8

/-- Structure `Memory` from `memory.rs`: an owned byte buffer. -/
structure Memory where
  data : List Nat
deriving DecidableEq

/-- Function `Memory::read8`. -/
def Memory.read8 (m : Memory) (offset : Nat) : Except String Nat :=
  if offset ≥ m.data.length then
    .error "trying to read an offset beyond the memory length"
  else
    .ok (m.data.getD offset 0)

/-- Function `Memory::read16` (big-endian: high byte at `offset`). -/
def Memory.read16 (m : Memory) (offset : Nat) : Except String Nat :=
  if m.data.length < 2 then
    .error "this memory does not have enough space to read from"
  else if offset ≥ m.data.length - 1 then
    .error "trying to read an offset beyond the memory length"
  else
    let msb := m.data.getD offset 0
    let lsb := m.data.getD (offset + 1) 0
    .ok (lsb ||| (msb <<< 8))

/-- Function `Memory::write8`. -/
def Memory.write8 (m : Memory) (offset value : Nat) : Except String Memory :=
  if offset ≥ m.data.length then
    .error "trying to write a 8-bits value beyond the memory length"
  else
    .ok ⟨m.data.set offset value⟩

/-- Function `Memory::write16` (stores the high byte at `offset`, low at `offset+1`). -/
def Memory.write16 (m : Memory) (offset value : Nat) : Except String Memory :=
  if m.data.length < 2 then
    .error "this memory does not have enough space to store this data"
  else if offset ≥ m.data.length - 1 then
    .error "trying to write a 16-bits value beyond the memory length"
  else
    let msb := (value >>> 8) &&& 0xFF
    let lsb := value &&& 0xFF
    .ok ⟨(m.data.set offset msb).set (offset + 1) lsb⟩

/-- The effect of the copy loop of `Memory::write8_range`:
`for (dest, from) in self.data[start..end].iter_mut().zip(content)`.
The zip stops at the shorter of the slice and `content`; callers pass
`content` already truncated to the slice length. -/
def writeSeq (data : List Nat) (start : Nat) : List Nat → List Nat
  | [] => data
  | b :: rest => writeSeq (data.set start b) (start + 1) rest

/-- Function `Memory::write8_range`: copy `content` into `[start, stop)`.
The `start = stop` test comes first in the source, so an equal pair
succeeds even beyond capacity; any other range with `stop ≥ len` fails. -/
def Memory.write8_range (m : Memory) (start stop : Nat) (content : List Nat) :
    Except String Memory :=
  if start = stop then
    .ok m
  else if start > stop then
    .error "start parameter cannot be superior to end parameter"
  else if stop ≥ m.data.length then
    .error "range is out of bound from memory length"
  else
    .ok ⟨writeSeq m.data start (content.take (stop - start))⟩

/-- Structure `Registers` from `register.rs` (wall-clock instants omitted). -/
structure Registers where
  v : List Nat
  pc : Nat
  sp : Nat
  i : Nat
  dt : Nat
  st : Nat
deriving DecidableEq

/-- Read `registers.v[idx]`; the source array has fixed length 16 and every
decoded index is ≤ 15, so the default is never reached there. -/
def vread (r : Registers) (idx : Nat) : Nat :=
  r.v.getD idx 0

/-- Write `registers.v[idx] = value`. -/
def vwrite (r : Registers) (idx value : Nat) : Registers :=
  { r with v := r.v.set idx value }

/-- Structure `Operands` from `instruction.rs`. -/
structure Operands where
  nnn : Nat
  nibble : Nat
  x : Nat
  y : Nat
  kk : Nat
deriving DecidableEq

/-- The operand-field derivation performed by `Instruction::new`. -/
def Operands.ofWord (instruction : Nat) : Operands :=
  { nnn := instruction &&& 0x0FFF
    nibble := instruction &&& 0x000F
    x := (instruction &&& 0x0F00) >>> 8
    y := (instruction &&& 0x00F0) >>> 4
    kk := instruction &&& 0x00FF }

/-- The machine state a handler receives (`Chip8` fields from `chip.rs`
that opcode handlers can touch). -/
structure Chip8State where
  ram : Memory
  stack : Memory
  regs : Registers
  keys : List Bool
  screen : List Nat
deriving DecidableEq

/-- The `ret` handler: `sp -= 2` (wrapping) then
`pc = stack.read16(sp).unwrap() + 2`; the `unwrap` panics (`none`) when the
read is out of bounds. -/
def ret (s : Chip8State) : Option Chip8State :=
  match s.stack.read16 ((s.regs.sp + 254) % 256) with
  | .error _ => none
  | .ok addr =>
      some { s with regs := { s.regs with sp := (s.regs.sp + 254) % 256,
                                          pc := (addr + 2) % 65536 } }

/-- The `call_addr` handler: push `pc` at `sp`; on a failed push, return early
with nothing changed; otherwise `sp += 2` and `pc = nnn`. -/
def call_addr (operands : Operands) (s : Chip8State) : Option Chip8State :=
  match s.stack.write16 s.regs.sp s.regs.pc with
  | .error _ => some s
  | .ok stack2 =>
      some { s with stack := stack2,
                    regs := { s.regs with sp := (s.regs.sp + 2) % 256,
                                          pc := operands.nnn } }

/-- The `add_reg_reg` handler (`ADD Vx, Vy`): the 9-bit sum is computed first,
then `VF` receives the carry, then `Vx` receives the low byte — so when
`x = 0xF` the second store overwrites the carry. -/
def add_reg_reg (operands : Operands) (s : Chip8State) : Option Chip8State :=
  let result := vread s.regs operands.x + vread s.regs operands.y
  let regs1 := vwrite s.regs 0xF (if result > 255 then 1 else 0)
  let regs2 := vwrite regs1 operands.x (result &&& 0xFF)
  some { s with regs := { regs2 with pc := (regs2.pc + 2) % 65536 } }

/-- The first rejection test of `drw_reg_reg_nibble`. -/
def drwXYOutOfRange (operands : Operands) : Bool :=
  operands.x > 0xF || operands.y > 0xF

/-- The second rejection test of `drw_reg_reg_nibble`. -/
def drwNibbleOutOfRange (operands : Operands) : Bool :=
  operands.nibble > 15

/-- One iteration of the inner column loop of `drw_reg_reg_nibble`:
XOR one sprite bit into the screen, recording a collision in `VF`.
`registers.v[x]` is re-read on every iteration, exactly as in the source. -/
def drwCol (xIdx yy sprite : Nat) (acc : List Nat × Registers) (col : Nat) :
    List Nat × Registers :=
  let xx := ((vread acc.2 xIdx + col) % 256) % 64
  let idx := yy * 64 + xx
  let current := acc.1.getD idx 0
  let bit := (sprite &&& (0x80 >>> col)) >>> (7 - col)
  let regs2 := if bit &&& current ≠ 0 then vwrite acc.2 0xF 1 else acc.2
  (acc.1.set idx (current ^^^ bit), regs2)

/-- The row loop of `drw_reg_reg_nibble`.  A failed sprite read returns
early (`false` flag): the rows already drawn stay and `pc` is not advanced. -/
def drwRows (ram : Memory) (i yIdx xIdx : Nat) :
    List Nat × Registers → List Nat → List Nat × Registers × Bool
  | acc, [] => (acc.1, acc.2, true)
  | acc, row :: rest =>
      let yy := ((vread acc.2 yIdx + row) % 256) % 32
      match ram.read8 ((i + row) % 65536) with
      | .error _ => (acc.1, acc.2, false)
      | .ok sprite =>
          drwRows ram i yIdx xIdx
            ((List.range 8).foldl (drwCol xIdx yy sprite) acc) rest

/-- The `drw_reg_reg_nibble` handler (`DRW Vx, Vy, n`): reset `VF`, reject
out-of-range operands (returning with `pc` untouched), otherwise XOR the
sprite rows into the screen and advance `pc` by 2 when every row was read. -/
def drw_reg_reg_nibble (operands : Operands) (s : Chip8State) :
    Option Chip8State :=
  let regs0 := vwrite s.regs 0xF 0
  if drwXYOutOfRange operands then
    some { s with regs := regs0 }
  else if drwNibbleOutOfRange operands then
    some { s with regs := regs0 }
  else
    let r := drwRows s.ram regs0.i operands.y operands.x (s.screen, regs0)
      (List.range operands.nibble)
    if r.2.2 then
      some { s with screen := r.1,
                    regs := { r.2.1 with pc := (r.2.1.pc + 2) % 65536 } }
    else
      some { s with screen := r.1, regs := r.2.1 }

/-- Rust `keys.iter().position(|&pressed| pressed)`: index of the first pressed
key. -/
def firstPressed : List Bool → Option Nat
  | [] => none
  | k :: rest => if k then some 0 else (firstPressed rest).map (fun n => n + 1)

/-- The `ld_reg_k` handler (`LD Vx, K`): if some key is pressed, store the first
pressed index into `Vx` and advance `pc`; otherwise do nothing at all. -/
def ld_reg_k (operands : Operands) (s : Chip8State) : Option Chip8State :=
  match firstPressed s.keys with
  | none => some s
  | some index =>
      let regs1 := vwrite s.regs operands.x index
      some { s with regs := { regs1 with pc := (regs1.pc + 2) % 65536 } }

/-- The `ld_b_reg` handler (`LD B, Vx`): BCD store, writing the ones digit at
`i + 2` first; each failed write returns early, keeping earlier writes. -/
def ld_b_reg (operands : Operands) (s : Chip8State) : Option Chip8State :=
  let value := vread s.regs operands.x
  match s.ram.write8 ((s.regs.i + 2) % 65536) (value % 10) with
  | .error _ => some s
  | .ok ram1 =>
      let value1 := value / 10
      match ram1.write8 ((s.regs.i + 1) % 65536) (value1 % 10) with
      | .error _ => some { s with ram := ram1 }
      | .ok ram2 =>
          let value2 := value1 / 10
          match ram2.write8 s.regs.i (value2 % 10) with
          | .error _ => some { s with ram := ram2 }
          | .ok ram3 =>
              some { s with ram := ram3,
                            regs := { s.regs with
                                      pc := (s.regs.pc + 2) % 65536 } }

/-- The store loop of `ld_to_i_reg`; a failed write returns early keeping
the writes already done (`false` flag: `pc` not advanced). -/
def ldToILoop (regs : Registers) : Memory → List Nat → Memory × Bool
  | ram, [] => (ram, true)
  | ram, index :: rest =>
      match ram.write8 ((regs.i + index) % 65536) (vread regs index) with
      | .error _ => (ram, false)
      | .ok ram2 => ldToILoop regs ram2 rest

/-- The `ld_to_i_reg` handler (`LD [I], Vx`): store `V0..Vx` at `i, i+1, ...`. -/
def ld_to_i_reg (operands : Operands) (s : Chip8State) : Option Chip8State :=
  let r := ldToILoop s.regs s.ram (List.range (operands.x + 1))
  if r.2 then
    some { s with ram := r.1,
                  regs := { s.regs with pc := (s.regs.pc + 2) % 65536 } }
  else
    some { s with ram := r.1 }

/-- The load loop of `ld_reg_from_i`; a failed read returns early keeping
the registers already loaded. -/
def ldFromILoop (ram : Memory) (i : Nat) : Registers → List Nat → Registers × Bool
  | regs, [] => (regs, true)
  | regs, index :: rest =>
      match ram.read8 ((i + index) % 65536) with
      | .error _ => (regs, false)
      | .ok byte => ldFromILoop ram i (vwrite regs index byte) rest

/-- The `ld_reg_from_i` handler (`LD Vx, [I]`): load `V0..Vx` from `i, i+1, ...`. -/
def ld_reg_from_i (operands : Operands) (s : Chip8State) : Option Chip8State :=
  let r := ldFromILoop s.ram s.regs.i s.regs (List.range (operands.x + 1))
  if r.2 then
    some { s with regs := { r.1 with pc := (r.1.pc + 2) % 65536 } }
  else
    some { s with regs := r.1 }

/-! ### Concrete machine states used as test inputs -/

/-- A freshly built machine (4096-byte RAM whose byte 0 is the sprite row
`0xFF`, 32-byte stack, `pc = 0x200`, `sp = 0`, `i = 0`, `V0 = 60`, all other
registers 0, no key pressed, empty 64×32 screen). -/
def sampleState : Chip8State :=
  { ram := ⟨0xFF :: List.replicate 4095 0⟩
    stack := ⟨List.replicate 32 0⟩
    regs := { v := 60 :: List.replicate 15 0, pc := 0x200, sp := 0, i := 0,
              dt := 0, st := 0 }
    keys := List.replicate 16 false
    screen := List.replicate 2048 0 }

/-- Decoded operands of the word `0xD011` (`DRW V0, V1, 1`). -/
def sampleOperands : Operands := Operands.ofWord 0xD011

/-- The draw-test machine: like `sampleState` but with a RAM that holds
just the single all-ones sprite row `0xFF` at address 0 (= `I`). -/
def c6State : Chip8State := { sampleState with ram := ⟨[0xFF]⟩ }

/-- Hand-made operand struct with `x = 16 > 0xF` (the decoder can never
produce it; it exercises the rejection branch of the draw handler). -/
def badXOperands : Operands := { nnn := 0, nibble := 1, x := 16, y := 0, kk := 0 }

/-- State `sampleState` with a full call stack (`sp = 32`). -/
def fullStackState : Chip8State :=
  { sampleState with regs := { sampleState.regs with sp := 32 } }

/-- State `sampleState` with `VF = 5` and every other register 0; executing
`ADD VF, V0` on it exposes the carry-flag aliasing. -/
def vfFiveState : Chip8State :=
  { sampleState with regs := { sampleState.regs with
                               v := List.replicate 15 0 ++ [5] } }

/-- State `sampleState` with `V0 = 157` and `i = 100` (BCD test input). -/
def bcdState : Chip8State :=
  { sampleState with regs := { sampleState.regs with
                               v := 157 :: List.replicate 15 0, i := 100 } }

/-- State `sampleState` with keys 2 and 5 pressed. -/
def keyState : Chip8State :=
  { sampleState with keys :=
      [false, false, true, false, false, true] ++ List.replicate 10 false }

/-- The screen expected after drawing the 8×1 all-ones sprite at (60, 0) on
an empty screen: exactly the row-0 columns 60, 61, 62, 63, 0, 1, 2, 3 are
set, all other 2040 cells stay 0. -/
def c6_screen1 : List Nat :=
  ((((((((List.replicate 2048 0).set 60 1).set 61 1).set 62 1).set 63 1).set
    0 1).set 1 1).set 2 1).set 3 1

/-! ### Helper lemmas about lists and the memory primitives -/

theorem getD_set_self (l : List Nat) (idx a d : Nat) (h : idx < l.length) :
    (l.set idx a).getD idx d = a := by
  induction l generalizing idx with
  | nil => simp at h
  | cons b rest ih =>
      cases idx with
      | zero => rfl
      | succ k =>
          simp only [List.set_cons_succ, List.getD_cons_succ]
          exact ih k (by simpa using h)

theorem getD_set_ne (l : List Nat) (idx j a d : Nat) (h : idx ≠ j) :
    (l.set idx a).getD j d = l.getD j d := by
  induction l generalizing idx j with
  | nil => simp [List.set]
  | cons b rest ih =>
      cases idx with
      | zero =>
          cases j with
          | zero => exact absurd rfl h
          | succ k => simp [List.getD_cons_succ]
      | succ k =>
          cases j with
          | zero => simp
          | succ k2 =>
              simp only [List.set_cons_succ, List.getD_cons_succ]
              exact ih k k2 (fun hk => h (by rw [hk]))

theorem getD_take (l : List Nat) (n k d : Nat) (h : k < n) :
    (l.take n).getD k d = l.getD k d := by
  induction l generalizing n k with
  | nil => simp
  | cons b rest ih =>
      cases n with
      | zero => omega
      | succ n2 =>
          cases k with
          | zero => rfl
          | succ k2 =>
              simp only [List.take_succ_cons, List.getD_cons_succ]
              exact ih n2 k2 (by omega)

theorem writeSeq_length (c : List Nat) (data : List Nat) (start : Nat) :
    (writeSeq data start c).length = data.length := by
  induction c generalizing data start with
  | nil => rfl
  | cons b rest ih => simp [writeSeq, ih]

theorem writeSeq_getD_lt (c : List Nat) (data : List Nat) (start j d : Nat)
    (h : j < start) : (writeSeq data start c).getD j d = data.getD j d := by
  induction c generalizing data start with
  | nil => rfl
  | cons b rest ih =>
      rw [writeSeq, ih _ _ (by omega), getD_set_ne _ _ _ _ _ (by omega)]

theorem writeSeq_getD_ge (c : List Nat) (data : List Nat) (start j d : Nat)
    (h : start + c.length ≤ j) :
    (writeSeq data start c).getD j d = data.getD j d := by
  induction c generalizing data start with
  | nil => rfl
  | cons b rest ih =>
      rw [writeSeq, ih _ _ (by simp at h; omega),
        getD_set_ne _ _ _ _ _ (by simp at h; omega)]

theorem writeSeq_getD_in (c : List Nat) (data : List Nat) (start j d : Nat)
    (h1 : start ≤ j) (h2 : j - start < c.length) (h3 : j < data.length) :
    (writeSeq data start c).getD j d = c.getD (j - start) 0 := by
  induction c generalizing data start with
  | nil => simp at h2
  | cons b rest ih =>
      rw [writeSeq]
      rcases Nat.eq_or_lt_of_le h1 with heq | hlt
      · subst heq
        rw [writeSeq_getD_lt _ _ _ _ _ (by omega), Nat.sub_self,
          List.getD_cons_zero, getD_set_self _ _ _ _ h3]
      · have hj : j - start = (j - (start + 1)) + 1 := by omega
        rw [ih (data.set start b) (start + 1) hlt
            (by simp at h2; omega) (by simpa using h3), hj,
          List.getD_cons_succ]

theorem firstPressed_of_all_false (ks : List Bool) (h : ∀ k ∈ ks, k = false) :
    firstPressed ks = none := by
  induction ks with
  | nil => rfl
  | cons b rest ih =>
      have hb : b = false := h b (by simp)
      simp [firstPressed, hb, ih (fun k hk => h k (by simp [hk]))]

theorem firstPressed_isSome (ks : List Bool) (h : ∃ k ∈ ks, k = true) :
    (firstPressed ks).isSome = true := by
  induction ks with
  | nil => simp at h
  | cons b rest ih =>
      cases hb : b with
      | true => simp [firstPressed]
      | false =>
          have hex : ∃ k ∈ rest, k = true := by
            rcases h with ⟨k, hk, hkt⟩
            subst hkt
            rcases List.mem_cons.mp hk with h1 | h1
            · simp [← h1] at hb
            · exact ⟨true, h1, rfl⟩
          have hs := ih hex
          cases hfp : firstPressed rest with
          | none => rw [hfp] at hs; simp at hs
          | some j => simp [firstPressed, hfp]

theorem firstPressed_spec (ks : List Bool) (j : Nat)
    (h : firstPressed ks = some j) :
    ks.getD j false = true ∧ ∀ m, m < j → ks.getD m false = false := by
  induction ks generalizing j with
  | nil => cases h
  | cons b rest ih =>
      cases hb : b with
      | true =>
          rw [firstPressed, hb, if_pos rfl] at h
          cases h
          exact ⟨rfl, fun m hm => absurd hm (Nat.not_lt_zero m)⟩
      | false =>
          rw [firstPressed, hb, if_neg (by simp)] at h
          cases hfp : firstPressed rest with
          | none => rw [hfp] at h; cases h
          | some j2 =>
              rw [hfp] at h
              have hj : j2 + 1 = j := by simpa using h
              subst hj
              rcases ih j2 hfp with ⟨h1, h2⟩
              refine ⟨by simpa using h1, fun m hm => ?_⟩
              cases m with
              | zero => simp
              | succ m2 =>
                  simpa using h2 m2 (by omega)

/-- Reading 16 bits back after `write16` recovers the written `u16` value. -/
theorem write16_read16 (m : Memory) (off v : Nat) (h2 : 2 ≤ m.data.length)
    (hoff : off + 1 < m.data.length) (hv : v < 65536) :
    ∃ m2, m.write16 off v = .ok m2 ∧ m2.read16 off = .ok v ∧
      m2.data.length = m.data.length := by
  refine ⟨⟨(m.data.set off ((v >>> 8) &&& 0xFF)).set (off + 1) (v &&& 0xFF)⟩,
    ?_, ?_, by simp⟩
  · rw [Memory.write16, if_neg (by omega), if_neg (by omega)]
  · rw [Memory.read16, if_neg (by simp only [List.length_set]; omega),
      if_neg (by simp only [List.length_set]; omega)]
    have hmsb : ((m.data.set off ((v >>> 8) &&& 0xFF)).set (off + 1)
        (v &&& 0xFF)).getD off 0 = (v >>> 8) &&& 0xFF := by
      rw [getD_set_ne _ _ _ _ _ (by omega),
        getD_set_self _ _ _ _ (by omega)]
    have hlsb : ((m.data.set off ((v >>> 8) &&& 0xFF)).set (off + 1)
        (v &&& 0xFF)).getD (off + 1) 0 = v &&& 0xFF := by
      rw [getD_set_self _ _ _ _ (by simpa using hoff)]
    simp only [hmsb, hlsb]
    congr 1
    have e1 : v &&& 0xFF = v % 256 := by
      have := Nat.and_pow_two_sub_one_eq_mod v 8
      norm_num at this
      exact this
    have h256 : (2 : Nat) ^ 8 = 256 := by norm_num
    have e2 : (v >>> 8) &&& 0xFF = v / 256 := by
      have h8 := Nat.and_pow_two_sub_one_eq_mod (v >>> 8) 8
      norm_num at h8
      rw [h8, Nat.shiftRight_eq_div_pow, h256]
      exact Nat.mod_eq_of_lt (by omega)
    rw [e1, e2, Nat.shiftLeft_eq, Nat.lor_comm]
    have hlt : v % 256 < 2 ^ 8 := by rw [h256]; omega
    calc v / 256 * 2 ^ 8 ||| v % 256
        = 2 ^ 8 * (v / 256) ||| v % 256 := by rw [Nat.mul_comm]
      _ = 2 ^ 8 * (v / 256) + v % 256 := (Nat.mul_add_lt_is_or hlt _).symm
      _ = v := by rw [h256]; omega

theorem vread_vwrite_self (r : Registers) (idx a : Nat) (h : idx < r.v.length) :
    vread (vwrite r idx a) idx = a :=
  getD_set_self r.v idx a 0 h

theorem vread_vwrite_ne (r : Registers) (idx j a : Nat) (h : idx ≠ j) :
    vread (vwrite r idx a) j = vread r j :=
  getD_set_ne r.v idx j a 0 h

/-! ### Helper lemmas about the opcode handlers -/

/-- With the engine's 32-byte stack, `ret` panics exactly when the
decremented stack pointer is at offset 31 or beyond. -/
theorem ret_none_iff (s : Chip8State) (hlen : s.stack.data.length = 32) :
    (ret s = none ↔ 31 ≤ (s.regs.sp + 254) % 256) := by
  unfold ret
  rcases Nat.lt_or_ge ((s.regs.sp + 254) % 256) 31 with hc | hc
  · have hok : s.stack.read16 ((s.regs.sp + 254) % 256) =
        .ok (s.stack.data.getD ((s.regs.sp + 254) % 256 + 1) 0 |||
          s.stack.data.getD ((s.regs.sp + 254) % 256) 0 <<< 8) := by
      rw [Memory.read16, if_neg (by omega), if_neg (by omega)]
    rw [hok]
    simp
    omega
  · have herr : s.stack.read16 ((s.regs.sp + 254) % 256) =
        .error "trying to read an offset beyond the memory length" := by
      rw [Memory.read16, if_neg (by omega), if_pos (by omega)]
    rw [herr]
    simp
    omega

/-- A `call_addr` whose stack push fails leaves the state untouched. -/
theorem call_addr_stack_full (operands : Operands) (s : Chip8State)
    (hlen : s.stack.data.length = 32) (hsp : 31 ≤ s.regs.sp) :
    call_addr operands s = some s := by
  have herr : s.stack.write16 s.regs.sp s.regs.pc =
      .error "trying to write a 16-bits value beyond the memory length" := by
    rw [Memory.write16, if_neg (by omega), if_pos (by omega)]
  unfold call_addr
  rw [herr]

theorem call_addr_isSome (operands : Operands) (s : Chip8State) :
    (call_addr operands s).isSome = true := by
  unfold call_addr
  cases s.stack.write16 s.regs.sp s.regs.pc <;> rfl

theorem drw_isSome (operands : Operands) (s : Chip8State) :
    (drw_reg_reg_nibble operands s).isSome = true := by
  simp only [drw_reg_reg_nibble]
  split
  · rfl
  · split
    · rfl
    · split <;> rfl

theorem ld_b_isSome (operands : Operands) (s : Chip8State) :
    (ld_b_reg operands s).isSome = true := by
  simp only [ld_b_reg]
  split
  · rfl
  · split
    · rfl
    · split <;> rfl

theorem ld_to_i_isSome (operands : Operands) (s : Chip8State) :
    (ld_to_i_reg operands s).isSome = true := by
  simp only [ld_to_i_reg]
  split <;> rfl

theorem ld_from_i_isSome (operands : Operands) (s : Chip8State) :
    (ld_reg_from_i operands s).isSome = true := by
  simp only [ld_reg_from_i]
  split <;> rfl

/-- Error characterization of `write8_range`. -/
theorem write8_range_error_iff (m : Memory) (start stop : Nat)
    (content : List Nat) :
    (∃ e, m.write8_range start stop content = .error e) ↔
      start ≠ stop ∧ (stop < start ∨ m.data.length ≤ stop) := by
  unfold Memory.write8_range
  by_cases h1 : start = stop
  · simp [h1]
  · rw [if_neg h1]
    by_cases h2 : start > stop
    · rw [if_pos h2]
      simp [h1]
      omega
    · rw [if_neg h2]
      by_cases h3 : stop ≥ m.data.length
      · rw [if_pos h3]
        simp [h1]
        omega
      · rw [if_neg h3]
        simp [h1]
        omega

/-- A `write8_range` with `start = stop` is a successful no-op. -/
theorem write8_range_nop (m : Memory) (start stop : Nat) (content : List Nat)
    (h : start = stop) : m.write8_range start stop content = .ok m := by
  unfold Memory.write8_range
  rw [if_pos h]

/-- Successful `write8_range` in terms of the copy loop. -/
theorem write8_range_success (m : Memory) (start stop : Nat)
    (content : List Nat) (h1 : start < stop) (h2 : stop < m.data.length) :
    m.write8_range start stop content =
      .ok ⟨writeSeq m.data start (content.take (stop - start))⟩ := by
  unfold Memory.write8_range
  rw [if_neg (by omega), if_neg (by omega), if_neg (by omega)]

/-- In-bounds `read8` returns the stored byte. -/
theorem read8_ok (m : Memory) (j : Nat) (h : j < m.data.length) :
    m.read8 j = .ok (m.data.getD j 0) := by
  rw [Memory.read8, if_neg (by omega)]

/-! ### Claim theorems -/

/-- C1 (corrected): the fallible-memory handlers CALL, DRW, LD B, LD [I]
and LD Vx,[I] never panic on a decoded instruction — an out-of-bounds
RAM/stack access comes back as an explicit error value and the handler
returns early, aborting the step (a failed CALL push leaves the state
exactly unchanged) — but RET does not follow this discipline: with the
32-byte stack it panics (`none`) exactly when the decremented stack
pointer is at offset 31 or beyond, which covers the empty stack. -/
theorem c1_no_panic_except_ret :
    ∀ (operands : Operands) (s : Chip8State),
      operands.x ≤ 15 → operands.y ≤ 15 → s.screen.length = 2048 →
      ((call_addr operands s).isSome = true ∧
        (drw_reg_reg_nibble operands s).isSome = true ∧
        (ld_b_reg operands s).isSome = true ∧
        (ld_to_i_reg operands s).isSome = true ∧
        (ld_reg_from_i operands s).isSome = true) ∧
      (s.stack.data.length = 32 → 31 ≤ s.regs.sp →
        call_addr operands s = some s) ∧
      (s.stack.data.length = 32 →
        (ret s = none ↔ 31 ≤ (s.regs.sp + 254) % 256)) := by
  intro operands s hx hy hscr
  exact ⟨⟨call_addr_isSome operands s, drw_isSome operands s,
      ld_b_isSome operands s, ld_to_i_isSome operands s,
      ld_from_i_isSome operands s⟩,
    fun hlen hsp => call_addr_stack_full operands s hlen hsp,
    fun hlen => ret_none_iff s hlen⟩

/-- C1 counterexample: on a fresh machine (empty call stack, `sp = 0`)
executing RET panics (modelled as `none`) instead of producing the
explicit failure the claim promises. -/
theorem c1_counterexample : ret sampleState = none := rfl

/-- C1 witness: the amended statement applied at concrete inputs. -/
theorem c1_witness :
    (call_addr sampleOperands sampleState).isSome = true ∧
      (ret fullStackState = none ↔ 31 ≤ (fullStackState.regs.sp + 254) % 256) :=
  ⟨(c1_no_panic_except_ret sampleOperands sampleState (by decide) (by decide)
      (by simp only [sampleState]; exact List.length_replicate 2048 0)).1.1,
   (c1_no_panic_except_ret sampleOperands fullStackState (by decide) (by decide)
      (by simp only [fullStackState, sampleState]
          exact List.length_replicate 2048 0)).2.2
     (by simp only [fullStackState, sampleState]
         exact List.length_replicate 32 0)⟩

/-- C2 (corrected): on out-of-range draw operands (`x > 0xF`, `y > 0xF`
or `nibble > 15`) the DRW handler performs no draw and resets VF to 0,
leaving screen, RAM and every other register untouched — but contrary to
the claim, PC is NOT advanced: the handler returns before `pc += 2`. -/
theorem c2_drw_reject_no_advance :
    ∀ (operands : Operands) (s : Chip8State),
      (15 < operands.x ∨ 15 < operands.y ∨ 15 < operands.nibble) →
      drw_reg_reg_nibble operands s =
        some { s with regs := vwrite s.regs 0xF 0 } := by
  intro operands s h
  by_cases hxy : drwXYOutOfRange operands = true
  · simp [drw_reg_reg_nibble, hxy]
  · have hn : drwNibbleOutOfRange operands = true := by
      simp only [drwXYOutOfRange, Bool.or_eq_true, decide_eq_true_eq,
        not_or] at hxy
      rcases h with h | h | h
      · exact absurd h hxy.1
      · exact absurd h hxy.2
      · simpa [drwNibbleOutOfRange] using h
    simp [drw_reg_reg_nibble, hxy, hn]

/-- C2 counterexample: a draw with `x = 16` leaves PC at `0x200`, whereas
the claim requires it to advance to `0x202`. -/
theorem c2_counterexample :
    (drw_reg_reg_nibble badXOperands sampleState).map (fun t => t.regs.pc) =
      some 0x200 ∧ (0x200 : Nat) ≠ 0x200 + 2 :=
  ⟨rfl, by decide⟩

/-- C2 witness: the amended statement applied at a concrete input. -/
theorem c2_witness :
    (15 < badXOperands.x ∨ 15 < badXOperands.y ∨ 15 < badXOperands.nibble) ∧
      drw_reg_reg_nibble badXOperands sampleState =
        some { sampleState with regs := vwrite sampleState.regs 0xF 0 } :=
  ⟨by decide, c2_drw_reject_no_advance badXOperands sampleState (by decide)⟩

/-- C3 (corrected): `write8_range(start, end, bytes)` errors exactly when
`start ≠ end` and (`start > end` or `end ≥ capacity`); it is a successful
no-op whenever `start = end` (even beyond capacity); otherwise it copies
the bytes into `[start, end)`.  Contrary to the claim, a range whose `end`
EQUALS the capacity fails (the code rejects `end >= len`, not
`end > len`). -/
theorem c3_write8_range_spec :
    ∀ (m : Memory) (start stop : Nat) (content : List Nat),
      ((∃ e, m.write8_range start stop content = .error e) ↔
        start ≠ stop ∧ (stop < start ∨ m.data.length ≤ stop)) ∧
      (start = stop → m.write8_range start stop content = .ok m) ∧
      (start < stop → stop < m.data.length →
        ∃ m2, m.write8_range start stop content = .ok m2 ∧
          m2.data.length = m.data.length ∧
          (∀ j, start ≤ j → j < stop → j - start < content.length →
            m2.read8 j = .ok (content.getD (j - start) 0)) ∧
          (∀ j, j < start ∨ stop ≤ j ∨ content.length ≤ j - start →
            m2.read8 j = m.read8 j)) := by
  intro m start stop content
  refine ⟨write8_range_error_iff m start stop content,
    write8_range_nop m start stop content, ?_⟩
  intro h1 h2
  have hdd : (⟨writeSeq m.data start (content.take (stop - start))⟩ :
      Memory).data = writeSeq m.data start (content.take (stop - start)) := rfl
  have hlen : (writeSeq m.data start (content.take (stop - start))).length
      = m.data.length := writeSeq_length _ _ _
  refine ⟨⟨writeSeq m.data start (content.take (stop - start))⟩,
    write8_range_success m start stop content h1 h2, by rw [hdd, hlen], ?_, ?_⟩
  · intro j hj1 hj2 hj3
    have hmin : (content.take (stop - start)).length =
        min (stop - start) content.length := List.length_take _ _
    rw [read8_ok _ j (by rw [hdd, hlen]; omega), hdd,
      writeSeq_getD_in _ _ _ _ _ hj1 (by rw [hmin]; omega) (by omega),
      getD_take _ _ _ _ (by omega)]
  · intro j hj
    have hmin : (content.take (stop - start)).length =
        min (stop - start) content.length := List.length_take _ _
    have hgd : (writeSeq m.data start (content.take (stop - start))).getD j 0
        = m.data.getD j 0 := by
      rcases Nat.lt_or_ge j start with hlt | hge
      · exact writeSeq_getD_lt _ _ _ _ _ hlt
      · refine writeSeq_getD_ge _ _ _ _ _ ?_
        rcases hj with h | h | h
        · omega
        · rw [hmin]; omega
        · rw [hmin]; omega
    by_cases hjlen : j < m.data.length
    · rw [read8_ok _ j (by rw [hdd, hlen]; omega), read8_ok _ j hjlen, hdd, hgd]
    · have e1 : Memory.read8
          ⟨writeSeq m.data start (content.take (stop - start))⟩ j =
          .error "trying to read an offset beyond the memory length" := by
        rw [Memory.read8, if_pos (by rw [hdd, hlen]; omega)]
      have e2 : m.read8 j =
          .error "trying to read an offset beyond the memory length" := by
        rw [Memory.read8, if_pos (by omega)]
      rw [e1, e2]

/-- C3 counterexample: on a 4-byte buffer, a write with `end = capacity = 4`
fails, whereas the claim requires it to succeed. -/
theorem c3_counterexample :
    Memory.write8_range ⟨[0, 0, 0, 0]⟩ 0 4 [1, 2, 3, 4] =
      .error "range is out of bound from memory length" := rfl

/-- C3 witness: the amended statement applied at concrete inputs
(a no-op write with `start = end` and a successful 3-byte copy). -/
theorem c3_witness :
    Memory.write8_range ⟨[9, 9, 9, 9]⟩ 2 2 [7] = .ok ⟨[9, 9, 9, 9]⟩ ∧
      ∃ m2, Memory.write8_range ⟨[9, 9, 9, 9]⟩ 0 3 [1, 2, 3] = .ok m2 ∧
        m2.read8 0 = .ok 1 := by
  refine ⟨(c3_write8_range_spec ⟨[9, 9, 9, 9]⟩ 2 2 [7]).2.1 rfl, ?_⟩
  obtain ⟨m2, hm2, hl, hin, hout⟩ :=
    (c3_write8_range_spec ⟨[9, 9, 9, 9]⟩ 0 3 [1, 2, 3]).2.2 (by decide)
      (by decide)
  exact ⟨m2, hm2, hin 0 (by decide) (by decide) (by decide)⟩

/-- C4 (corrected): `ADD Vx, Vy` stores `(Vx + Vy) mod 256` into `Vx`,
advances PC by exactly 2, and — provided `x ≠ 0xF` — sets `VF = 1` iff
`Vx + Vy > 255` and `VF = 0` otherwise.  When `x = 0xF` the claim fails:
the stored sum overwrites the just-written carry flag, so `VF` ends as
`(VF + Vy) mod 256` rather than the carry bit. -/
theorem c4_add_reg_reg :
    ∀ (operands : Operands) (s : Chip8State),
      operands.x ≤ 15 → operands.y ≤ 15 → s.regs.v.length = 16 →
      s.regs.pc + 2 < 65536 →
      ∃ s2, add_reg_reg operands s = some s2 ∧
        s2.regs.pc = s.regs.pc + 2 ∧
        vread s2.regs operands.x =
          (vread s.regs operands.x + vread s.regs operands.y) % 256 ∧
        (operands.x ≠ 15 → vread s2.regs 15 =
          (if 255 < vread s.regs operands.x + vread s.regs operands.y
           then 1 else 0)) ∧
        (operands.x = 15 → vread s2.regs 15 =
          (vread s.regs 15 + vread s.regs operands.y) % 256) ∧
        (∀ j, j ≠ operands.x → j ≠ 15 → vread s2.regs j = vread s.regs j) ∧
        s2.ram = s.ram ∧ s2.stack = s.stack ∧ s2.keys = s.keys ∧
        s2.screen = s.screen ∧ s2.regs.sp = s.regs.sp ∧
        s2.regs.i = s.regs.i := by
  intro operands s hx hy hv hpc
  have hmod : (vread s.regs operands.x + vread s.regs operands.y) &&& 0xFF
      = (vread s.regs operands.x + vread s.regs operands.y) % 256 := by
    have h8 := Nat.and_pow_two_sub_one_eq_mod
      (vread s.regs operands.x + vread s.regs operands.y) 8
    norm_num at h8
    exact h8
  refine ⟨_, rfl, ?_, ?_, ?_, ?_, ?_, rfl, rfl, rfl, rfl, rfl, rfl⟩
  · exact Nat.mod_eq_of_lt hpc
  · show vread (vwrite (vwrite s.regs 0xF _) operands.x _) operands.x = _
    rw [vread_vwrite_self _ _ _ (by simp only [vwrite, List.length_set]; omega),
      hmod]
  · intro hne
    show vread (vwrite (vwrite s.regs 0xF _) operands.x _) 15 = _
    rw [vread_vwrite_ne _ _ _ _ hne, vread_vwrite_self _ _ _ (by omega)]
  · intro heq
    show vread (vwrite (vwrite s.regs 0xF _) operands.x _) 15 = _
    rw [heq] at hmod ⊢
    rw [vread_vwrite_self _ _ _ (by simp only [vwrite, List.length_set]; omega),
      hmod]
  · intro j hj1 hj2
    show vread (vwrite (vwrite s.regs 0xF _) operands.x _) j = _
    rw [vread_vwrite_ne _ _ _ _ (fun h => hj1 h.symm),
      vread_vwrite_ne _ _ _ _ (fun h => hj2 h.symm)]

/-- C4 counterexample: `ADD VF, V0` with `VF = 5`, `V0 = 0` — the sum is
`5 ≤ 255`, so the claim requires `VF = 0` afterwards, but the handler
leaves `VF = 5` (the stored sum overwrote the carry). -/
theorem c4_counterexample :
    (add_reg_reg (Operands.ofWord 0x8F04) vfFiveState).map
        (fun t => vread t.regs 15) = some 5 ∧
      vread vfFiveState.regs 15 + vread vfFiveState.regs 0 ≤ 255 ∧
      (5 : Nat) ≠ 0 :=
  ⟨rfl, by decide, by decide⟩

/-- C4 witness: the amended statement applied at a concrete input
(`ADD V0, V1` on the fresh machine). -/
theorem c4_witness :
    ∃ s2, add_reg_reg (Operands.ofWord 0x8014) sampleState = some s2 ∧
      s2.regs.pc = sampleState.regs.pc + 2 ∧
      vread s2.regs (Operands.ofWord 0x8014).x =
        (vread sampleState.regs (Operands.ofWord 0x8014).x +
          vread sampleState.regs (Operands.ofWord 0x8014).y) % 256 := by
  obtain ⟨s2, h1, h2, h3, -⟩ := c4_add_reg_reg (Operands.ofWord 0x8014)
    sampleState (by decide) (by decide) (by decide) (by decide)
  exact ⟨s2, h1, h2, h3⟩

/-- C5 (confirmed): from any state whose stack admits one more frame
(`sp ≤ 30` on the 32-byte stack), CALL nnn followed immediately by RET
brings PC to `call_site + 2` and restores SP to its pre-CALL value. -/
theorem c5_call_then_ret :
    ∀ (operands : Operands) (s : Chip8State),
      s.stack.data.length = 32 → s.regs.sp ≤ 30 → s.regs.pc + 2 < 65536 →
      ∃ s1 s2, call_addr operands s = some s1 ∧ ret s1 = some s2 ∧
        s2.regs.pc = s.regs.pc + 2 ∧ s2.regs.sp = s.regs.sp := by
  intro operands s hlen hsp hpc
  obtain ⟨m2, hw, hr, hlen2⟩ := write16_read16 s.stack s.regs.sp s.regs.pc
    (by omega) (by omega) (by omega)
  have hsp2 : ((s.regs.sp + 2) % 256 + 254) % 256 = s.regs.sp := by omega
  have hcall : call_addr operands s = some
      { s with stack := m2
               regs := { s.regs with sp := (s.regs.sp + 2) % 256
                                     pc := operands.nnn } } := by
    unfold call_addr
    rw [hw]
  have hret : ret { s with stack := m2
                           regs := { s.regs with sp := (s.regs.sp + 2) % 256
                                                 pc := operands.nnn } } = some
      { s with stack := m2
               regs := { s.regs with
                         sp := ((s.regs.sp + 2) % 256 + 254) % 256
                         pc := (s.regs.pc + 2) % 65536 } } := by
    unfold ret
    have hscrut : m2.read16 (((s.regs.sp + 2) % 256 + 254) % 256)
        = .ok s.regs.pc := by rw [hsp2]; exact hr
    dsimp only
    rw [hscrut]
  exact ⟨_, _, hcall, hret, Nat.mod_eq_of_lt hpc, hsp2⟩

/-- C5 witness: CALL `$300` then RET on the fresh machine. -/
theorem c5_witness :
    ∃ s1 s2, call_addr (Operands.ofWord 0x2300) sampleState = some s1 ∧
      ret s1 = some s2 ∧ s2.regs.pc = sampleState.regs.pc + 2 ∧
      s2.regs.sp = sampleState.regs.sp :=
  c5_call_then_ret (Operands.ofWord 0x2300) sampleState (by decide) (by decide)
    (by decide)

/-- C6 (confirmed): on the draw-test machine (`V0 = 60`, `V1 = 0`, `I = 0`
pointing at a `0xFF` sprite row, empty screen), `DRW V0, V1, 1` sets
exactly the row-0 columns 60, 61, 62, 63, 0, 1, 2, 3 (wrap modulo 64),
leaves VF = 0 and advances PC to `0x202`; executing the same DRW again
clears all eight pixels, sets VF = 1 (collision) and advances PC to
`0x204`. -/
theorem c6_double_draw :
    ((drw_reg_reg_nibble sampleOperands c6State).map
        (fun t => (t.screen, vread t.regs 15, t.regs.pc)) =
      some (c6_screen1, 0, 0x202)) ∧
    (((drw_reg_reg_nibble sampleOperands c6State).bind
        (drw_reg_reg_nibble sampleOperands)).map
        (fun t => (t.screen, vread t.regs 15, t.regs.pc)) =
      some (List.replicate 2048 0, 1, 0x204)) :=
  ⟨rfl, rfl⟩

/-- C7 (confirmed): `LD Vx, K` with no key pressed leaves the whole state
(in particular PC and Vx) unchanged no matter how often it is re-executed;
with at least one key pressed it stores the lowest pressed key index into
`Vx` and advances PC by exactly 2. -/
theorem c7_ld_reg_k :
    ∀ (operands : Operands) (s : Chip8State),
      s.regs.pc + 2 < 65536 →
      ((∀ k ∈ s.keys, k = false) → ld_reg_k operands s = some s) ∧
      ((∀ k ∈ s.keys, k = false) → ∀ n,
        Nat.iterate (fun st => (ld_reg_k operands st).getD st) n s = s) ∧
      ((∃ k ∈ s.keys, k = true) → (firstPressed s.keys).isSome = true) ∧
      (∀ j, firstPressed s.keys = some j →
        s.keys.getD j false = true ∧
        (∀ m, m < j → s.keys.getD m false = false) ∧
        ld_reg_k operands s =
          some { s with regs := { vwrite s.regs operands.x j with
                                  pc := s.regs.pc + 2 } }) := by
  intro operands s hpc
  have hnone : (∀ k ∈ s.keys, k = false) → ld_reg_k operands s = some s := by
    intro hall
    unfold ld_reg_k
    rw [firstPressed_of_all_false s.keys hall]
  refine ⟨hnone, ?_, firstPressed_isSome s.keys, ?_⟩
  · intro hall n
    have hfix : (fun st => (ld_reg_k operands st).getD st) s = s := by
      show (ld_reg_k operands s).getD s = s
      rw [hnone hall]
      rfl
    exact Function.iterate_fixed
      (f := fun st => (ld_reg_k operands st).getD st) hfix n
  · intro j hj
    rcases firstPressed_spec s.keys j hj with ⟨h1, h2⟩
    refine ⟨h1, h2, ?_⟩
    unfold ld_reg_k
    rw [hj]
    dsimp only
    rw [show ((vwrite s.regs operands.x j).pc + 2) % 65536
        = s.regs.pc + 2 from Nat.mod_eq_of_lt hpc]

/-- C7 witness: no key pressed on the fresh machine (state unchanged), and
keys 2 and 5 pressed (`V0` receives 2, the lowest pressed index, PC
advances by 2). -/
theorem c7_witness :
    ld_reg_k sampleOperands sampleState = some sampleState ∧
      keyState.keys.getD 2 false = true ∧
      (∀ m, m < 2 → keyState.keys.getD m false = false) ∧
      ld_reg_k sampleOperands keyState =
        some { keyState with regs := { vwrite keyState.regs sampleOperands.x 2
                                       with pc := keyState.regs.pc + 2 } } :=
  ⟨(c7_ld_reg_k sampleOperands sampleState (by decide)).1 (by decide),
   (c7_ld_reg_k sampleOperands keyState (by decide)).2.2.2 2 (by decide)⟩

/-- C8 (confirmed): with `I + 2` inside program RAM, `LD B, Vx` writes the
hundreds digit of `Vx` at `I`, the tens digit at `I + 1` and the ones
digit at `I + 2`, and advances PC by exactly 2 leaving everything else
unchanged. -/
theorem c8_ld_b_reg :
    ∀ (operands : Operands) (s : Chip8State),
      s.ram.data.length ≤ 65536 → s.regs.i + 2 < s.ram.data.length →
      s.regs.pc + 2 < 65536 →
      ∃ ram3, ld_b_reg operands s =
          some { s with ram := ram3
                        regs := { s.regs with pc := s.regs.pc + 2 } } ∧
        ram3.data.length = s.ram.data.length ∧
        ram3.read8 s.regs.i = .ok (vread s.regs operands.x / 100 % 10) ∧
        ram3.read8 (s.regs.i + 1) = .ok (vread s.regs operands.x / 10 % 10) ∧
        ram3.read8 (s.regs.i + 2) = .ok (vread s.regs operands.x % 10) := by
  intro operands s hram hi hpc
  have hm2 : (s.regs.i + 2) % 65536 = s.regs.i + 2 := Nat.mod_eq_of_lt (by omega)
  have hm1 : (s.regs.i + 1) % 65536 = s.regs.i + 1 := Nat.mod_eq_of_lt (by omega)
  have hw2 : s.ram.write8 ((s.regs.i + 2) % 65536) (vread s.regs operands.x % 10)
      = .ok ⟨s.ram.data.set (s.regs.i + 2) (vread s.regs operands.x % 10)⟩ := by
    rw [hm2, Memory.write8, if_neg (by omega)]
  have hw1 : Memory.write8
      ⟨s.ram.data.set (s.regs.i + 2) (vread s.regs operands.x % 10)⟩
      ((s.regs.i + 1) % 65536) (vread s.regs operands.x / 10 % 10)
      = .ok ⟨(s.ram.data.set (s.regs.i + 2) (vread s.regs operands.x % 10)).set
          (s.regs.i + 1) (vread s.regs operands.x / 10 % 10)⟩ := by
    rw [hm1, Memory.write8, if_neg (by simp only [List.length_set]; omega)]
  have hw0 : Memory.write8
      ⟨(s.ram.data.set (s.regs.i + 2) (vread s.regs operands.x % 10)).set
        (s.regs.i + 1) (vread s.regs operands.x / 10 % 10)⟩
      s.regs.i (vread s.regs operands.x / 10 / 10 % 10)
      = .ok ⟨((s.ram.data.set (s.regs.i + 2) (vread s.regs operands.x % 10)).set
          (s.regs.i + 1) (vread s.regs operands.x / 10 % 10)).set
          s.regs.i (vread s.regs operands.x / 10 / 10 % 10)⟩ := by
    rw [Memory.write8, if_neg (by simp only [List.length_set]; omega)]
  refine ⟨⟨((s.ram.data.set (s.regs.i + 2) (vread s.regs operands.x % 10)).set
      (s.regs.i + 1) (vread s.regs operands.x / 10 % 10)).set
      s.regs.i (vread s.regs operands.x / 10 / 10 % 10)⟩, ?_, ?_, ?_, ?_, ?_⟩
  · simp only [ld_b_reg]
    rw [hw2]
    dsimp only
    rw [hw1]
    dsimp only
    rw [hw0]
    dsimp only
    rw [show (s.regs.pc + 2) % 65536 = s.regs.pc + 2 from Nat.mod_eq_of_lt hpc]
  · simp only [List.length_set]
  · rw [read8_ok _ _ (by simp only [List.length_set]; omega)]
    show Except.ok ((((s.ram.data.set _ _).set _ _).set _ _).getD s.regs.i 0) = _
    rw [getD_set_self _ _ _ _ (by simp only [List.length_set]; omega),
      Nat.div_div_eq_div_mul]
  · rw [read8_ok _ _ (by simp only [List.length_set]; omega)]
    show Except.ok ((((s.ram.data.set _ _).set _ _).set _ _).getD (s.regs.i + 1) 0)
      = _
    rw [getD_set_ne _ _ _ _ _ (by omega),
      getD_set_self _ _ _ _ (by simp only [List.length_set]; omega)]
  · rw [read8_ok _ _ (by simp only [List.length_set]; omega)]
    show Except.ok ((((s.ram.data.set _ _).set _ _).set _ _).getD (s.regs.i + 2) 0)
      = _
    rw [getD_set_ne _ _ _ _ _ (by omega), getD_set_ne _ _ _ _ _ (by omega),
      getD_set_self _ _ _ _ (by omega)]

/-- C8 witness: `LD B, V0` with `V0 = 157`, `I = 100` writes bytes 1, 5, 7
at addresses 100, 101, 102. -/
theorem c8_witness :
    ∃ ram3, ld_b_reg (Operands.ofWord 0xF033) bcdState =
        some { bcdState with
               ram := ram3
               regs := { bcdState.regs with pc := bcdState.regs.pc + 2 } } ∧
      ram3.read8 100 = .ok 1 ∧ ram3.read8 101 = .ok 5 ∧
      ram3.read8 102 = .ok 7 := by
  obtain ⟨ram3, h1, h2, h3, h4, h5⟩ := c8_ld_b_reg (Operands.ofWord 0xF033)
    bcdState
    (by simp only [bcdState, sampleState, List.length_cons,
          List.length_replicate]; omega)
    (by simp only [bcdState, sampleState, List.length_cons,
          List.length_replicate]; omega)
    (by decide)
  exact ⟨ram3, h1, h3, h4, h5⟩

/-- C9 (confirmed): when the 16-bit stack push of CALL is out of bounds of
the 32-byte call stack, the handler changes nothing at all: the returned
state is exactly the input state. -/
theorem c9_call_full_stack_unchanged :
    ∀ (operands : Operands) (s : Chip8State),
      s.stack.data.length = 32 → 31 ≤ s.regs.sp →
      call_addr operands s = some s :=
  fun operands s hlen hsp => call_addr_stack_full operands s hlen hsp

/-- C9 witness: CALL on a machine whose stack is full (`sp = 32`). -/
theorem c9_witness :
    call_addr sampleOperands fullStackState = some fullStackState :=
  c9_call_full_stack_unchanged sampleOperands fullStackState
    (by simp only [fullStackState, sampleState]
        exact List.length_replicate 32 0)
    (by decide)

/-- C10 (confirmed): every decoded operand struct satisfies
`nnn ≤ 0xFFF`, `x ≤ 0xF`, `y ≤ 0xF`, `nibble ≤ 0xF` and `kk = word mod
256`, so neither rejection test of the DRW handler can fire on decoder
output. -/
theorem c10_decode_bounds :
    ∀ w : Nat,
      (Operands.ofWord w).nnn ≤ 0xFFF ∧ (Operands.ofWord w).x ≤ 0xF ∧
      (Operands.ofWord w).y ≤ 0xF ∧ (Operands.ofWord w).nibble ≤ 0xF ∧
      (Operands.ofWord w).kk = w % 256 ∧
      drwXYOutOfRange (Operands.ofWord w) = false ∧
      drwNibbleOutOfRange (Operands.ofWord w) = false := by
  intro w
  have hx : (w &&& 0x0F00) >>> 8 ≤ 0xF := by
    have h1 : w &&& 0x0F00 ≤ 0x0F00 := Nat.and_le_right
    rw [Nat.shiftRight_eq_div_pow]
    norm_num
    omega
  have hy : (w &&& 0x00F0) >>> 4 ≤ 0xF := by
    have h1 : w &&& 0x00F0 ≤ 0x00F0 := Nat.and_le_right
    rw [Nat.shiftRight_eq_div_pow]
    norm_num
    omega
  have hkk : w &&& 0x00FF = w % 256 := by
    have h8 := Nat.and_pow_two_sub_one_eq_mod w 8
    norm_num at h8
    exact h8
  refine ⟨Nat.and_le_right, hx, hy, Nat.and_le_right, hkk, ?_, ?_⟩
  · simp only [drwXYOutOfRange, Operands.ofWord, Bool.or_eq_false_iff,
      decide_eq_false_iff_not, Nat.not_lt]
    exact ⟨hx, hy⟩
  · simp only [drwNibbleOutOfRange, Operands.ofWord,
      decide_eq_false_iff_not, Nat.not_lt]
    exact Nat.and_le_right

end Chip8
